import Mathlib

/-!
Verification of the `kobi` terminal text editor (src/kobi.py) against its
natural-language specification.

`kobi.py` is a thin wrapper around the `prompt_toolkit` (3.0.x) widget
library: the buffer/cursor/undo/search core that the spec describes is
realised by `prompt_toolkit.buffer.Buffer` and
`prompt_toolkit.document.Document`, driven by the key-binding handlers in
`kobi.py`.  The shallow embedding below therefore models, faithfully to the
library sources:

* `Document` coordinate translation (`translate_row_col_to_index`),
  including Python's negative-index list semantics;
* `Buffer` snapshot-based undo (`save_to_undo_stack` / `undo`), including
  the key processor's `save_before` snapshot taken before every key press
  and the `if_no_repeat` rule of the basic editing bindings;
* `Buffer.insert_text`, `delete_before_cursor` and `delete` (the basic
  editing operations), which clear the selection whenever the text changes;
* the `kobi.py` handlers for Ctrl+S/F/G/C/X/V/Z, the startup file loading,
  lexer lookup and the status bar.

Attribute accesses in `kobi.py` that do not exist on the corresponding
`prompt_toolkit` objects (`buffer.search_state`,
`document.selection_range_text`, `buffer.delete_selection`) are modelled as
the `AttributeError` they raise at run time.

Text is `List Char`; machine strings are embedded via `String.toList`.
-/

/-- Document text and other strings, as a list of characters. -/
abbrev Text := List Char

/-- A `(text, cursor_position)` snapshot as stored on the undo/redo stacks
of `prompt_toolkit.buffer.Buffer` (`_undo_stack` / `_redo_stack` entries). -/
structure Snap where
  text : Text
  cursor : Nat
deriving DecidableEq, Repr

/-- `prompt_toolkit.clipboard.ClipboardData`: the `text` payload (the
`type` field never influences the modelled handlers). -/
structure ClipData where
  text : Text
deriving DecidableEq, Repr

/-- A Python exception escaping a key-binding handler. -/
inductive PyErr where
  /-- `AttributeError`: the named attribute does not exist on the object. -/
  | attributeError : Text → PyErr
  /-- An `OSError` propagated from file I/O. -/
  | ioError : Text → PyErr
deriving DecidableEq, Repr

/-- The mutable editor state of the running program: the `TextArea`'s
`Buffer` (text, cursor, undo/redo stacks, selection), the application
clipboard (`InMemoryClipboard`: `none` models an empty kill ring) and the
global `message` string of `kobi.py`.  The head of `ustack`/`rstack` is the
top of the corresponding stack. -/
structure EState where
  text : Text
  cursor : Nat
  ustack : List Snap
  rstack : List Snap
  selection : Option Nat
  clipboard : Option ClipData
  message : Text
deriving DecidableEq, Repr

/- ---------------- Document: lines and coordinate translation ---------------- -/

/-- Python `text.split("\n")`, the `lines` property of
`prompt_toolkit.document.Document`; always at least one line. -/
def splitLines : Text → List Text
  | [] => [[]]
  | c :: rest =>
    if c = '\n' then [] :: splitLines rest
    else
      match splitLines rest with
      | [] => [[c]]
      | l :: ls => (c :: l) :: ls

/-- Cumulative line start offsets (`Document._line_start_indexes`),
one entry per line. -/
def lineStartsAux (acc : Nat) : List Text → List Nat
  | [] => []
  | l :: ls => acc :: lineStartsAux (acc + l.length + 1) ls

/-- Line start offsets of a text. -/
def lineStarts (t : Text) : List Nat := lineStartsAux 0 (splitLines t)

/-- Python list subscription `l[i]` with an `Int` index: negative indices
count from the end; `none` models `IndexError`. -/
def pyGet (l : List α) (i : Int) : Option α :=
  if 0 ≤ i then l.get? i.toNat
  else if (-i).toNat ≤ l.length then l.get? (l.length - (-i).toNat)
  else none

/-- The `(line start, line)` pair selected by the `try`/`except IndexError`
block of `Document.translate_row_col_to_index`: subscription of
`_line_start_indexes[row]` / `lines[row]`, falling back to the first
(`row < 0`) or last line on `IndexError`. -/
def rowEntry (t : Text) (row : Int) : Nat × Text :=
  let entries := (lineStarts t).zip (splitLines t)
  match pyGet entries row with
  | some e => e
  | none => if row < 0 then entries.headD (0, []) else entries.getLastD (0, [])

/-- `Document.translate_row_col_to_index(row, col)`: start of the selected
line plus the column clamped to the line length, the result clamped to
`[0, len(text)]`. -/
def translateRowColToIndex (t : Text) (row col : Int) : Nat :=
  let e := rowEntry t row
  let res : Int := (e.1 : Int) + max 0 (min col (e.2.length : Int))
  (max 0 (min res (t.length : Int))).toNat

/- ---------------- Buffer: undo stack and basic edits ---------------- -/

/-- `Buffer.save_to_undo_stack()` as invoked by the key processor before a
handler runs (`clear_redo_stack=True`): if the top of the undo stack holds
the current text, only its cursor is updated, otherwise the current
`(text, cursor)` is pushed; the redo stack is cleared. -/
def saveToUndoStack (σ : EState) : EState :=
  let st :=
    match σ.ustack with
    | top :: rest =>
      if top.text = σ.text then { text := top.text, cursor := σ.cursor } :: rest
      else { text := σ.text, cursor := σ.cursor } :: top :: rest
    | [] => [{ text := σ.text, cursor := σ.cursor }]
  { σ with ustack := st, rstack := [] }

/-- The pop loop of `Buffer.undo()`: entries whose text equals the current
text are popped and discarded. -/
def dropSame (t : Text) : List Snap → List Snap
  | [] => []
  | s :: rest => if s.text = t then dropSame t rest else s :: rest

/-- `Buffer.undo()`: pop until a snapshot with a different text is found;
restore it (pushing the current state on the redo stack, and clearing the
selection since the document text changes), or do nothing if the stack runs
out. -/
def bufferUndo (σ : EState) : EState :=
  match dropSame σ.text σ.ustack with
  | [] => { σ with ustack := [] }
  | s :: rest =>
    { σ with
      text := s.text
      cursor := s.cursor
      ustack := rest
      rstack := { text := σ.text, cursor := σ.cursor } :: σ.rstack
      selection := none }

/-- `text[:cursor] + data + text[cursor:]` of `Buffer.insert_text`. -/
def insertAt (t : Text) (c : Nat) (s : Text) : Text := t.take c ++ s ++ t.drop c

/-- One basic editing operation of the running editor: a typed character
(the `Keys.Any` self-insert binding), a paste-like insertion of a whole
string (`Buffer.insert_text`, the Ctrl+V path), backspace
(`Buffer.delete_before_cursor`), or forward delete (`Buffer.delete`). -/
inductive Edit where
  | typeChar : Char → Edit
  | insStr : Text → Edit
  | delBack : Edit
  | delFwd : Edit
deriving DecidableEq, Repr

/-- Apply one edit to a `(text, cursor)` pair, following the
`prompt_toolkit.buffer.Buffer` methods:
`insert_text` splices at the cursor and advances it by the data length;
`delete_before_cursor(1)` removes `text[cursor-1:cursor]` when the cursor
is positive; `delete(1)` removes the character at the cursor when the
cursor is before the end. -/
def applyEdit : Edit → Snap → Snap
  | .typeChar ch, s => { text := insertAt s.text s.cursor [ch], cursor := s.cursor + 1 }
  | .insStr d, s => { text := insertAt s.text s.cursor d, cursor := s.cursor + d.length }
  | .delBack, s =>
    if s.cursor = 0 then s
    else
      let deleted := (s.text.drop (s.cursor - 1)).take 1
      { text := s.text.take (s.cursor - 1) ++ s.text.drop s.cursor,
        cursor := s.cursor - deleted.length }
  | .delFwd, s =>
    if s.cursor < s.text.length then
      { text := s.text.take s.cursor ++ s.text.drop (s.cursor + 1), cursor := s.cursor }
    else s

/-- Whether two consecutive key presses hit the same basic-edit binding:
all typed characters share the single `Keys.Any` binding, and backspace and
delete are each one binding.  (`is_repeat` in the key processor.) -/
def sameBinding : Edit → Edit → Bool
  | .typeChar _, .typeChar _ => true
  | .delBack, .delBack => true
  | .delFwd, .delFwd => true
  | _, _ => false

/-- The buffer mutation of one edit: update text and cursor by
`applyEdit`; a text change clears the selection (`Buffer._text_changed`). -/
def editCore (e : Edit) (σ : EState) : EState :=
  let s := applyEdit e { text := σ.text, cursor := σ.cursor }
  { σ with
    text := s.text
    cursor := s.cursor
    selection := if s.text = σ.text then σ.selection else none }

/-- One edit key press: the processor snapshots the buffer first
(`save_before`), except that the basic editing bindings use
`if_no_repeat`, skipping the snapshot when the press repeats the
previously pressed binding (`is_repeat`); then the edit runs. -/
def pressEdit (prev : Option Edit) (e : Edit) (σ : EState) : EState :=
  match prev with
  | some p => if sameBinding p e then editCore e σ else editCore e (saveToUndoStack σ)
  | none => editCore e (saveToUndoStack σ)

/-- Apply a sequence of edit key presses, tracking the previously pressed
binding for the `if_no_repeat` rule. -/
def pressEdits : Option Edit → List Edit → EState → EState
  | _, [], σ => σ
  | prev, e :: es, σ => pressEdits (some e) es (pressEdit prev e σ)

/-- The Ctrl+Z handler (kobi.py lines 147-151) including the processor's
`save_before` snapshot: snapshot, `Buffer.undo()`, set the status message. -/
def pressUndo (σ : EState) : EState :=
  { bufferUndo (saveToUndoStack σ) with message := (" [Undo]").toList }

/-- `n` consecutive Ctrl+Z presses. -/
def pressUndoN : Nat → EState → EState
  | 0, σ => σ
  | n + 1, σ => pressUndoN n (pressUndo σ)

/- ---------------- File loading and program setup ---------------- -/

/-- `load_file` (kobi.py lines 19-24): read the file, or return the empty
string when it does not exist (`except FileNotFoundError`).  The on-disk
state of the file is `none` when the file is missing. -/
def loadFile (disk : Option Text) : Text :=
  match disk with
  | some t => t
  | none => []

/-- `filename = sys.argv[1] if len(sys.argv) > 1 else "newfile.txt"`
(kobi.py line 17). -/
def chooseFilename (argv : List Text) : Text :=
  if 1 < argv.length then argv.getD 1 [] else ("newfile.txt").toList

/-- The freshly started editor for a given on-disk file content: the
`TextArea` buffer holds the loaded text with the cursor at offset 0, empty
undo/redo stacks, no selection, an empty clipboard, and an empty status
message. -/
def initialState (disk : Option Text) : EState :=
  { text := loadFile disk
    cursor := 0
    ustack := []
    rstack := []
    selection := none
    clipboard := none
    message := [] }

/-- The buffer text the program starts with, given the whole file system
(name-indexed disk contents) and `sys.argv` (kobi.py lines 17-26). -/
def programInitialText (argv : List Text) (fs : Text → Option Text) : Text :=
  loadFile (fs (chooseFilename argv))

/- ---------------- Lexer lookup ---------------- -/

/-- A pygments lexer class, as guessed by `guess_lexer_for_filename`. -/
structure LexerClass where
  name : Text
deriving DecidableEq, Repr

/-- `pygments.util.ClassNotFound`, raised when no lexer matches. -/
structure ClassNotFound where
  msg : Text
deriving DecidableEq, Repr

/-- `prompt_toolkit.lexers.PygmentsLexer` wrapping a lexer class. -/
structure PygmentsLexerW where
  cls : LexerClass
deriving DecidableEq, Repr

/-- `make_lexer` (kobi.py lines 29-34) over the outcome of the external
`guess_lexer_for_filename` collaborator: wrap a found lexer class, and turn
the `ClassNotFound` exception into `None`. -/
def makeLexer (guess : Except ClassNotFound LexerClass) : Option PygmentsLexerW :=
  match guess with
  | .ok l => some { cls := l }
  | .error _ => none

/- ---------------- Status bar ---------------- -/

/-- `Document.cursor_position_row`: number of line breaks before the
cursor. -/
def cursorRow (t : Text) (c : Nat) : Nat :=
  ((t.take c).filter (fun ch => ch = '\n')).length

/-- `Document.cursor_position_col`: offset of the cursor within its line. -/
def cursorCol (t : Text) (c : Nat) : Nat :=
  ((t.take c).reverse.takeWhile (fun ch => ch ≠ '\n')).length

/-- Decimal rendering of a natural number, as Python `str`/f-string
interpolation produces. -/
def natText (n : Nat) : Text := (toString n).toList

/-- `get_statusbar_text` (kobi.py lines 53-56):
`f" {filename} | Ln {row}, Col {col} {message} "` with 1-based row and
column. -/
def getStatusbarText (filename : Text) (σ : EState) : Text :=
  (" ").toList ++ filename ++ (" | Ln ").toList
    ++ natText (cursorRow σ.text σ.cursor + 1) ++ (", Col ").toList
    ++ natText (cursorCol σ.text σ.cursor + 1) ++ (" ").toList ++ σ.message ++ (" ").toList

/- ---------------- Save ---------------- -/

/-- Outcome of `with open(name, "w") as f: f.write(...)` for one save, as
decided by the operating system: success, a failure of `open` itself
(nothing written, the file untouched), or a failure during `write`/`close`
after `open` already truncated the file, leaving `partial` on disk. -/
inductive WriteOutcome where
  | ok : WriteOutcome
  | openErr : Text → WriteOutcome
  | writeErr : Text → Text → WriteOutcome
deriving DecidableEq, Repr

/-- The Ctrl+S handler (kobi.py lines 82-84) calling `save_file`
(lines 72-76), including the processor's `save_before` snapshot.  Returns
the resulting editor state, the new on-disk content of the target file in
the file system, and the exception escaping the handler, if any:
`save_file` has no `try`/`except`, so an `OSError` propagates uncaught and
the `message` assignment after `f.write` is never reached. -/
def saveKey (name : Text) (w : WriteOutcome) (fs : Text → Option Text)
    (σ : EState) : EState × (Text → Option Text) × Option PyErr :=
  let σ' := saveToUndoStack σ
  match w with
  | .ok =>
    ({ σ' with message := (" [Saved]").toList },
     fun n => if n = name then some σ'.text else fs n, none)
  | .openErr reason => (σ', fs, some (.ioError reason))
  | .writeErr reason part =>
    (σ', fun n => if n = name then some part else fs n, some (.ioError reason))

/- ---------------- Find ---------------- -/

/-- The Ctrl+F handler (kobi.py lines 92-97) including the processor's
`save_before` snapshot.  An empty term skips the body (`if term:`).  A
non-empty term executes `editor.buffer.search_state.text = term`, which
raises `AttributeError`: `prompt_toolkit.buffer.Buffer` has no
`search_state` attribute (search state lives on the layout's search
control), so the handler never reaches `apply_search`. -/
def findKey (term : Text) (σ : EState) : Except PyErr EState :=
  let σ' := saveToUndoStack σ
  if term = [] then .ok σ'
  else .error (.attributeError ("search_state").toList)

/- ---------------- Go to line ---------------- -/

/-- Python `str.isdigit` restricted to ASCII input: non-empty and all
characters in `0`-`9`.  On ASCII strings this coincides exactly with
CPython (no other ASCII character has the digit property).  Unicode
digit characters (Arabic-Indic digits, superscripts, ...) are outside
this model's input domain: theorems about the Ctrl+G handler therefore
either hypothesise `pyIsDigit = true` (which already forces ASCII
decimal input) or carry an explicit ASCII-input hypothesis. -/
def pyIsDigit (s : Text) : Bool :=
  decide (s ≠ []) && s.all (fun c => c.isDigit)

/-- Python `int` on a digit string. -/
def digitsVal (s : Text) : Nat :=
  s.foldl (fun a c => 10 * a + (c.toNat - 48)) 0

/-- The `f" [Line {line+1}]"` status message of the Ctrl+G handler. -/
def lineMessage (n : Nat) : Text :=
  (" [Line ").toList ++ natText n ++ ("]").toList

/-- The Ctrl+G handler (kobi.py lines 100-107) including the processor's
`save_before` snapshot: if the entered string is all decimal digits, move
the cursor to `translate_row_col_to_index(int(input) - 1, 0)` (which
clamps to the document) and report `[Line n]`; otherwise do nothing.
Faithful on ASCII input, where `isdigit` means exactly `0`-`9` and `int`
cannot fail; non-ASCII input (Unicode digit characters) is outside the
model's domain — see `pyIsDigit`. -/
def gotoKey (inp : Text) (σ : EState) : EState :=
  let σ' := saveToUndoStack σ
  if pyIsDigit inp then
    { σ' with
      cursor := translateRowColToIndex σ'.text ((digitsVal inp : Int) - 1) 0
      message := lineMessage (digitsVal inp) }
  else σ'

/- ---------------- Clipboard: copy, cut, paste ---------------- -/

/-- The Ctrl+C handler (kobi.py lines 111-121) including the processor's
`save_before` snapshot.  With no active selection it only sets the
`[No Selection]` message.  With a selection, `buf.document.selection_range_text`
raises `AttributeError`: `prompt_toolkit.document.Document` has no such
attribute. -/
def copyKey (σ : EState) : Except PyErr EState :=
  let σ' := saveToUndoStack σ
  match σ'.selection with
  | some _ => .error (.attributeError ("selection_range_text").toList)
  | none => .ok { σ' with message := (" [No Selection]").toList }

/-- The Ctrl+X handler (kobi.py lines 124-135), identical to Ctrl+C up to
the point of failure: with no active selection it only sets the
`[No Selection]` message; with a selection it raises the same
`AttributeError` before reaching `delete_selection`. -/
def cutKey (σ : EState) : Except PyErr EState :=
  let σ' := saveToUndoStack σ
  match σ'.selection with
  | some _ => .error (.attributeError ("selection_range_text").toList)
  | none => .ok { σ' with message := (" [No Selection]").toList }

/-- `InMemoryClipboard.get_data`: the most recent clipboard data, or an
empty `ClipboardData()` when nothing was ever copied. -/
def getData : Option ClipData → ClipData
  | some d => d
  | none => { text := [] }

/-- The Ctrl+V handler (kobi.py lines 139-144) including the processor's
`save_before` snapshot.  `ClipboardData` objects are always truthy, so
`if data and data.text:` tests whether the clipboard text is non-empty;
if so, `Buffer.insert_text` splices it at the cursor (clearing the
selection, since the text changes) and the `[Pasted]` message is set. -/
def pasteKey (σ : EState) : EState :=
  let σ' := saveToUndoStack σ
  let d := getData σ'.clipboard
  if d.text = [] then σ'
  else
    { σ' with
      text := insertAt σ'.text σ'.cursor d.text
      cursor := σ'.cursor + d.text.length
      selection := none
      message := (" [Pasted]").toList }

/- ---------------- Concrete states used by witnesses/counterexamples ---------------- -/

/-- An editor state with given buffer text and cursor, fresh history, no
selection, empty clipboard, empty message. -/
def freshBuffer (t : Text) (c : Nat) : EState :=
  { text := t, cursor := c, ustack := [], rstack := [],
    selection := none, clipboard := none, message := [] }

/-- A ten-line document (the shape of the spec's `goToLine(1000)`
scenario). -/
def tenLineDoc : Text := ("a\nb\nc\nd\ne\nf\ng\nh\ni\nj").toList

/-- A mid-session state with a non-empty redo history: start from an empty
fresh buffer, type `a`, then press Ctrl+Z. -/
def preAbortState : EState :=
  pressUndo (pressEdit none (Edit.typeChar 'a') (freshBuffer [] 0))

/- ---------------- Invariants for the undo/redo development ---------------- -/

/-- Adjacent stack entries hold different texts. -/
def AdjDistinct : List Snap → Prop
  | [] => True
  | [_] => True
  | a :: b :: rest => a.text ≠ b.text ∧ AdjDistinct (b :: rest)

/-- How a burst of repeated presses of one basic-edit binding moves the
text length away from the snapshot at the start of the burst: repeated
insertions grow the text, repeated deletions shrink it. -/
def dirOk : Edit → Nat → Nat → Prop
  | .typeChar _, tl, cl => tl < cl
  | .insStr _, tl, cl => tl < cl
  | .delBack, tl, cl => cl < tl
  | .delFwd, tl, cl => cl < tl

/-- During the edit phase: the current state either equals the top
snapshot (just saved, or only no-op edits since), or has drifted from it
in the direction of the previous binding's burst. -/
def BurstCond (σ : EState) (prev : Option Edit) : Prop :=
  ∀ top rest, σ.ustack = top :: rest →
    ({ text := σ.text, cursor := σ.cursor } : Snap) = top
    ∨ ∃ p, prev = some p ∧ dirOk p top.text.length σ.text.length

/-- Invariant maintained while a sequence of edit key presses runs from a
fresh-history state whose initial snapshot is `init`. -/
def InvE (σ : EState) (init : Snap) (prev : Option Edit) : Prop :=
  AdjDistinct σ.ustack
  ∧ (σ.ustack = [] → prev = none ∧ σ.text = init.text ∧ σ.cursor = init.cursor)
  ∧ (σ.ustack ≠ [] → σ.ustack.getLast? = some init)
  ∧ BurstCond σ prev

/-- Invariant maintained while Ctrl+Z presses unwind the stack back to
`init`: the bottom of the stack is `init`, adjacent entries differ in
text, and a top snapshot sharing the current text is the current state. -/
def UndoInv (σ : EState) (init : Snap) : Prop :=
  AdjDistinct σ.ustack
  ∧ (σ.ustack = [] → σ.text = init.text ∧ σ.cursor = init.cursor)
  ∧ (σ.ustack ≠ [] → σ.ustack.getLast? = some init)
  ∧ (∀ top rest, σ.ustack = top :: rest → top.text = σ.text →
      top = { text := σ.text, cursor := σ.cursor })

/-- State of the stack right after a `save_to_undo_stack` call: the top is
the current `(text, cursor)`, adjacent entries differ in text, the bottom
is `init`. -/
def SavedInv (σ : EState) (init : Snap) : Prop :=
  AdjDistinct σ.ustack
  ∧ σ.ustack.getLast? = some init
  ∧ ∃ tail, σ.ustack = { text := σ.text, cursor := σ.cursor } :: tail

/-- Number of effective Ctrl+Z presses still needed to reach the bottom of
the undo stack. -/
def needed (σ : EState) : Nat :=
  match σ.ustack with
  | [] => 0
  | top :: rest => if top.text = σ.text then rest.length else rest.length + 1

/- ---------------- Basic facts about the snapshot step ---------------- -/

@[simp] theorem saveToUndoStack_text (σ : EState) : (saveToUndoStack σ).text = σ.text := rfl

@[simp] theorem saveToUndoStack_cursor (σ : EState) : (saveToUndoStack σ).cursor = σ.cursor := rfl

@[simp] theorem saveToUndoStack_selection (σ : EState) :
    (saveToUndoStack σ).selection = σ.selection := rfl

@[simp] theorem saveToUndoStack_clipboard (σ : EState) :
    (saveToUndoStack σ).clipboard = σ.clipboard := rfl

@[simp] theorem saveToUndoStack_message (σ : EState) :
    (saveToUndoStack σ).message = σ.message := rfl

@[simp] theorem saveToUndoStack_rstack (σ : EState) : (saveToUndoStack σ).rstack = [] := rfl

/-- Claim C6: loading a nonexistent file produces the empty string
(`load_file` turns `FileNotFoundError` into `""`), so the freshly started
editor's buffer is exactly one empty line rather than a failure. -/
theorem load_missing_file_empty_buffer :
    loadFile none = [] ∧ (initialState none).text = []
      ∧ splitLines (initialState none).text = [[]]
      ∧ (splitLines (initialState none).text).length = 1 :=
  ⟨rfl, rfl, rfl, rfl⟩

/-- Claim C8: when the external `guess_lexer_for_filename` collaborator
recognizes no language (raises `ClassNotFound`), `make_lexer` yields the
`None` alternative of its optional result — `makeLexer` is a total
function, so absence is a normal value, not an exception, and the
`TextArea` is then built with `lexer=None` (plain text). -/
theorem makeLexer_absence_is_none (e : ClassNotFound) :
    makeLexer (Except.error e) = none := rfl

/-- Claim C9: started with no command-line argument (`sys.argv = [prog]`),
the program operates on `"newfile.txt"`: the chosen filename is that
literal, the initial buffer text is loaded from that file-system entry, a
successful save writes the buffer to that entry, and the status bar text
displays that name. -/
theorem default_filename_newfile (p : Text) (fs : Text → Option Text) (σ : EState) :
    chooseFilename [p] = ("newfile.txt").toList
  ∧ programInitialText [p] fs = loadFile (fs (("newfile.txt").toList))
  ∧ (saveKey (chooseFilename [p]) .ok fs σ).2.1 (("newfile.txt").toList) = some σ.text
  ∧ getStatusbarText (chooseFilename [p]) σ
      = (" ").toList ++ ("newfile.txt").toList ++ ((" | Ln ").toList
        ++ natText (cursorRow σ.text σ.cursor + 1) ++ (", Col ").toList
        ++ natText (cursorCol σ.text σ.cursor + 1) ++ (" ").toList
        ++ σ.message ++ (" ").toList) := by
  refine ⟨rfl, rfl, ?_, rfl⟩
  simp [saveKey, chooseFilename]

/-- Claim C2: the Ctrl+S save path is atomic towards the buffer and
surfaces collaborator failures: in every outcome the buffer text and
cursor are untouched; the handler reports no error exactly when the whole
write succeeded, in which case the file holds exactly the buffer text and
the `[Saved]` message is set; on failure the `OSError` propagates uncaught
(`save_file` has no `try`/`except`) and the message is not set. -/
theorem save_surfaces_failures_buffer_intact (name : Text) (fs : Text → Option Text)
    (σ : EState) (w : WriteOutcome) :
    ((saveKey name w fs σ).1.text = σ.text ∧ (saveKey name w fs σ).1.cursor = σ.cursor)
  ∧ ((saveKey name w fs σ).2.2 = none ↔ w = .ok)
  ∧ ((saveKey name .ok fs σ).2.1 name = some σ.text
      ∧ (saveKey name .ok fs σ).1.message = (" [Saved]").toList)
  ∧ (∀ r, (saveKey name (.openErr r) fs σ).2.2 = some (.ioError r)
      ∧ (saveKey name (.openErr r) fs σ).2.1 = fs
      ∧ (saveKey name (.openErr r) fs σ).1.message = σ.message)
  ∧ (∀ r part, (saveKey name (.writeErr r part) fs σ).2.2 = some (.ioError r)
      ∧ (saveKey name (.writeErr r part) fs σ).1.message = σ.message) := by
  refine ⟨?_, ?_, ?_, ?_, ?_⟩ <;> cases w <;> simp [saveKey]

/-- Claim C10: pasting with an empty clipboard (`get_data` returns an
empty `ClipboardData`, whether the clipboard ring is empty or holds data
with empty text) leaves the buffer content and the cursor unchanged: the
`if data and data.text:` guard skips the insertion. -/
theorem paste_empty_clipboard_preserves_buffer (σ : EState)
    (h : (getData σ.clipboard).text = []) :
    (pasteKey σ).text = σ.text ∧ (pasteKey σ).cursor = σ.cursor := by
  simp [pasteKey, h]

/-- Witness for the paste claim at a concrete state: buffer `ab`, cursor 1,
empty clipboard. -/
theorem paste_empty_clipboard_witness :
    (getData (freshBuffer (("ab").toList) 1).clipboard).text = []
  ∧ ((pasteKey (freshBuffer (("ab").toList) 1)).text = (freshBuffer (("ab").toList) 1).text
      ∧ (pasteKey (freshBuffer (("ab").toList) 1)).cursor = (freshBuffer (("ab").toList) 1).cursor) :=
  ⟨rfl, paste_empty_clipboard_preserves_buffer (freshBuffer (("ab").toList) 1) rfl⟩

/-- Claim C5: with no active selection, both Ctrl+X (cut) and Ctrl+C
(copy) succeed without raising, produce no text (the clipboard is not
touched), leave buffer content and cursor unchanged, and report the
defined `[No Selection]` outcome in the status message. -/
theorem cut_copy_without_selection_safe (σ : EState) (h : σ.selection = none) :
    (∃ σ', cutKey σ = .ok σ' ∧ σ'.text = σ.text ∧ σ'.cursor = σ.cursor
        ∧ σ'.clipboard = σ.clipboard ∧ σ'.message = (" [No Selection]").toList)
  ∧ (∃ σ', copyKey σ = .ok σ' ∧ σ'.text = σ.text ∧ σ'.cursor = σ.cursor
        ∧ σ'.clipboard = σ.clipboard ∧ σ'.message = (" [No Selection]").toList) := by
  constructor
  · refine ⟨{ saveToUndoStack σ with message := (" [No Selection]").toList }, ?_, rfl, rfl, rfl, rfl⟩
    simp [cutKey, h]
  · refine ⟨{ saveToUndoStack σ with message := (" [No Selection]").toList }, ?_, rfl, rfl, rfl, rfl⟩
    simp [copyKey, h]

/-- Witness for the no-selection cut/copy claim at a concrete state:
buffer `hello`, cursor 2, no selection. -/
theorem cut_copy_without_selection_witness :
    (freshBuffer (("hello").toList) 2).selection = none
  ∧ ((∃ σ', cutKey (freshBuffer (("hello").toList) 2) = .ok σ'
        ∧ σ'.text = (freshBuffer (("hello").toList) 2).text
        ∧ σ'.cursor = (freshBuffer (("hello").toList) 2).cursor
        ∧ σ'.clipboard = (freshBuffer (("hello").toList) 2).clipboard
        ∧ σ'.message = (" [No Selection]").toList)
    ∧ (∃ σ', copyKey (freshBuffer (("hello").toList) 2) = .ok σ'
        ∧ σ'.text = (freshBuffer (("hello").toList) 2).text
        ∧ σ'.cursor = (freshBuffer (("hello").toList) 2).cursor
        ∧ σ'.clipboard = (freshBuffer (("hello").toList) 2).clipboard
        ∧ σ'.message = (" [No Selection]").toList)) :=
  ⟨rfl, cut_copy_without_selection_safe (freshBuffer (("hello").toList) 2) rfl⟩

/-- Claim C4 (code bug): on the spec's own scenario — document
`foo bar foo`, cursor at offset 0, query `foo` — the Ctrl+F handler does
not advance to the match at offset 8: it raises `AttributeError`, because
`Buffer` has no `search_state` attribute, so search never happens at all. -/
theorem find_nonempty_query_attribute_error :
    findKey (("foo").toList) (freshBuffer (("foo bar foo").toList) 0)
      = .error (.attributeError ("search_state").toList) := rfl

/- ---------------- Go to line: clamping beyond the last line ---------------- -/

theorem splitLines_ne_nil : ∀ t : Text, splitLines t ≠ []
  | [] => by simp [splitLines]
  | c :: rest => by
    unfold splitLines
    by_cases h : c = '\n' <;> simp [h]
    cases hr : splitLines rest with
    | nil => simp
    | cons l ls => simp

theorem lineStartsAux_length : ∀ (ls : List Text) (acc : Nat),
    (lineStartsAux acc ls).length = ls.length
  | [], _ => rfl
  | l :: ls, acc => by
    unfold lineStartsAux
    simp [lineStartsAux_length ls]

theorem lineStarts_length (t : Text) : (lineStarts t).length = (splitLines t).length :=
  lineStartsAux_length _ _

theorem get_last_entry {α : Type} (d : α) :
    ∀ l : List α, l ≠ [] → l.get? (l.length - 1) = some (l.getLastD d)
  | [], h => absurd rfl h
  | [a], _ => rfl
  | a :: b :: t, _ => by
    have ih := get_last_entry d (b :: t) (by simp)
    have h1 : (a :: b :: t).length - 1 = (b :: t).length := by simp
    have h2 : (a :: b :: t).getLastD d = (b :: t).getLastD d := by
      simp [List.getLastD_eq_getLast?]
    rw [h1, h2]
    simpa using ih

theorem rowEntry_beyond_eq_last (t : Text) (row : Int)
    (h : ((splitLines t).length : Int) ≤ row) :
    rowEntry t row = rowEntry t (((splitLines t).length : Int) - 1) := by
  have hpos : 0 < (splitLines t).length := List.length_pos.mpr (splitLines_ne_nil t)
  have hlen : ((lineStarts t).zip (splitLines t)).length = (splitLines t).length := by
    simp [List.length_zip, lineStarts_length]
  have hne : (lineStarts t).zip (splitLines t) ≠ [] := by
    intro hnil
    rw [hnil] at hlen
    simp at hlen
    omega
  unfold rowEntry
  have h0 : (0 : Int) ≤ row := by omega
  have hbig : ((lineStarts t).zip (splitLines t)).length ≤ row.toNat := by omega
  have hnone : pyGet ((lineStarts t).zip (splitLines t)) row = none := by
    unfold pyGet
    rw [if_pos h0]
    exact List.get?_eq_none.mpr hbig
  have hlast : pyGet ((lineStarts t).zip (splitLines t)) (((splitLines t).length : Int) - 1)
      = some (((lineStarts t).zip (splitLines t)).getLastD (0, [])) := by
    unfold pyGet
    have h0' : (0 : Int) ≤ ((splitLines t).length : Int) - 1 := by omega
    rw [if_pos h0']
    have htn : (((splitLines t).length : Int) - 1).toNat
        = ((lineStarts t).zip (splitLines t)).length - 1 := by omega
    rw [htn]
    exact get_last_entry (0, []) _ hne
  have hneg : ¬ row < 0 := by omega
  simp only [rowEntry]
  rw [hnone, hlast]
  simp [hneg]

theorem translate_beyond_eq_last (t : Text) (row : Int)
    (h : ((splitLines t).length : Int) ≤ row) :
    translateRowColToIndex t row 0
      = translateRowColToIndex t (((splitLines t).length : Int) - 1) 0 := by
  unfold translateRowColToIndex
  rw [rowEntry_beyond_eq_last t row h]

/-- Claim C1 counterexample: on the spec's own scenario — the ten-line
document, cursor at offset 0 — `goToLine(1000)` does not report
`OutOfRange` and does not leave the cursor unchanged: the handler
succeeds, moves the cursor to offset 18 (the start of the last line) and
reports `[Line 1000]`. -/
theorem goto_1000_on_ten_lines_moves_cursor :
    (gotoKey (("1000").toList) (freshBuffer tenLineDoc 0)).cursor = 18
  ∧ (gotoKey (("1000").toList) (freshBuffer tenLineDoc 0)).cursor
      ≠ (freshBuffer tenLineDoc 0).cursor
  ∧ (gotoKey (("1000").toList) (freshBuffer tenLineDoc 0)).message = lineMessage 1000 := by
  refine ⟨by decide, by decide, by decide⟩

/-- Claim C1 (amended): for every document and digit input whose value `n`
exceeds the line count, the Ctrl+G handler does not fail: it clamps — the
cursor lands exactly where `goToLine(lineCount)` would put it (the start
of the last line, by `translate_row_col_to_index`'s fallback) — and the
status message still reports `[Line n]`. -/
theorem goto_beyond_line_count_clamps (σ : EState) (inp : Text)
    (hd : pyIsDigit inp = true)
    (hgt : (splitLines σ.text).length < digitsVal inp) :
    (gotoKey inp σ).cursor
        = translateRowColToIndex σ.text (((splitLines σ.text).length : Int) - 1) 0
  ∧ (gotoKey inp σ).message = lineMessage (digitsVal inp) := by
  have ht := translate_beyond_eq_last σ.text ((digitsVal inp : Int) - 1) (by omega)
  unfold gotoKey
  simp [hd, ht]

/-- Witness for the amended go-to-line claim: input `1000` on the
ten-line document. -/
theorem goto_beyond_line_count_witness :
    pyIsDigit (("1000").toList) = true
  ∧ (splitLines tenLineDoc).length < digitsVal (("1000").toList)
  ∧ ((gotoKey (("1000").toList) (freshBuffer tenLineDoc 0)).cursor
        = translateRowColToIndex tenLineDoc (((splitLines tenLineDoc).length : Int) - 1) 0
    ∧ (gotoKey (("1000").toList) (freshBuffer tenLineDoc 0)).message
        = lineMessage (digitsVal (("1000").toList))) :=
  ⟨by decide, by decide,
    goto_beyond_line_count_clamps (freshBuffer tenLineDoc 0) (("1000").toList)
      (by decide) (by decide)⟩

/- ---------------- Prompt cancellation (find / go-to-line) ---------------- -/

/-- Claim C7 counterexample: aborting the find prompt does not leave the
history unchanged.  After typing `a` and undoing it, the redo stack holds
one entry; submitting an empty query to Ctrl+F returns normally but the
`save_before` snapshot taken before the handler has cleared the redo
stack. -/
theorem find_abort_changes_history :
    (findKey [] preAbortState).toOption.map EState.rstack = some []
  ∧ preAbortState.rstack ≠ [] := by decide

/-- Claim C7 (amended): submitting an empty query to the find prompt, or
ASCII non-numeric input to the go-to-line prompt, never raises and leaves
the buffer content, cursor, selection, clipboard and message unchanged —
but not the history: the `save_before` snapshot taken before every key
press clears the redo stack (and pushes the current state on the undo
stack).  The ASCII hypothesis keeps the go-to-line conjunct within the
domain where `pyIsDigit` coincides with Python's `str.isdigit`; Unicode
digit input is outside the model (there the real handler may move the
cursor, or raise `ValueError` from `int()` on non-decimal digits). -/
theorem prompt_abort_preserves_buffer_not_history (σ : EState) (inp : Text)
    (_hascii : ∀ c ∈ inp, c.toNat < 128)
    (hnd : pyIsDigit inp = false) :
    (∃ σ', findKey [] σ = .ok σ' ∧ σ'.text = σ.text ∧ σ'.cursor = σ.cursor
        ∧ σ'.selection = σ.selection ∧ σ'.clipboard = σ.clipboard
        ∧ σ'.message = σ.message ∧ σ'.rstack = [])
  ∧ ((gotoKey inp σ).text = σ.text ∧ (gotoKey inp σ).cursor = σ.cursor
      ∧ (gotoKey inp σ).selection = σ.selection ∧ (gotoKey inp σ).message = σ.message
      ∧ (gotoKey inp σ).rstack = []) := by
  constructor
  · exact ⟨saveToUndoStack σ, rfl, rfl, rfl, rfl, rfl, rfl, rfl⟩
  · unfold gotoKey
    simp [hnd]

/-- Witness for the amended prompt-cancellation claim: buffer `hi`,
cursor 1, go-to-line input `abc`. -/
theorem prompt_abort_witness :
    (∀ c ∈ ("abc").toList, c.toNat < 128)
  ∧ pyIsDigit (("abc").toList) = false
  ∧ ((∃ σ', findKey [] (freshBuffer (("hi").toList) 1) = .ok σ'
        ∧ σ'.text = (freshBuffer (("hi").toList) 1).text
        ∧ σ'.cursor = (freshBuffer (("hi").toList) 1).cursor
        ∧ σ'.selection = (freshBuffer (("hi").toList) 1).selection
        ∧ σ'.clipboard = (freshBuffer (("hi").toList) 1).clipboard
        ∧ σ'.message = (freshBuffer (("hi").toList) 1).message
        ∧ σ'.rstack = [])
    ∧ ((gotoKey (("abc").toList) (freshBuffer (("hi").toList) 1)).text
          = (freshBuffer (("hi").toList) 1).text
      ∧ (gotoKey (("abc").toList) (freshBuffer (("hi").toList) 1)).cursor
          = (freshBuffer (("hi").toList) 1).cursor
      ∧ (gotoKey (("abc").toList) (freshBuffer (("hi").toList) 1)).selection
          = (freshBuffer (("hi").toList) 1).selection
      ∧ (gotoKey (("abc").toList) (freshBuffer (("hi").toList) 1)).message
          = (freshBuffer (("hi").toList) 1).message
      ∧ (gotoKey (("abc").toList) (freshBuffer (("hi").toList) 1)).rstack = [])) :=
  ⟨by decide, by decide,
    prompt_abort_preserves_buffer_not_history (freshBuffer (("hi").toList) 1)
      (("abc").toList) (by decide) (by decide)⟩

/- ---------------- Undo as an inverse: basic step lemmas ---------------- -/

@[simp] theorem editCore_ustack (e : Edit) (σ : EState) : (editCore e σ).ustack = σ.ustack := rfl

@[simp] theorem editCore_rstack (e : Edit) (σ : EState) : (editCore e σ).rstack = σ.rstack := rfl

theorem editCore_snap (e : Edit) (σ : EState) :
    ({ text := (editCore e σ).text, cursor := (editCore e σ).cursor } : Snap)
      = applyEdit e { text := σ.text, cursor := σ.cursor } := rfl

theorem pressUndo_text (σ : EState) :
    (pressUndo σ).text = (bufferUndo (saveToUndoStack σ)).text := rfl

theorem pressUndo_cursor (σ : EState) :
    (pressUndo σ).cursor = (bufferUndo (saveToUndoStack σ)).cursor := rfl

theorem pressUndo_ustack (σ : EState) :
    (pressUndo σ).ustack = (bufferUndo (saveToUndoStack σ)).ustack := rfl

theorem adjDistinct_cons_iff (a : Snap) (l : List Snap) :
    AdjDistinct (a :: l) ↔ (∀ b rest, l = b :: rest → a.text ≠ b.text) ∧ AdjDistinct l := by
  cases l with
  | nil => simp [AdjDistinct]
  | cons b rest =>
    show a.text ≠ b.text ∧ AdjDistinct (b :: rest) ↔ _
    constructor
    · rintro ⟨h1, h2⟩
      exact ⟨by rintro b' rest' ⟨rfl, rfl⟩; exact h1, h2⟩
    · rintro ⟨h1, h2⟩
      exact ⟨h1 b rest rfl, h2⟩

theorem typeChar_len (ch : Char) (s : Snap) :
    (applyEdit (.typeChar ch) s).text.length = s.text.length + 1 := by
  simp [applyEdit, insertAt]
  omega

theorem delBack_len (s : Snap) : (applyEdit .delBack s).text.length ≤ s.text.length := by
  unfold applyEdit
  by_cases h : s.cursor = 0
  · simp [h]
  · simp [h]
    omega

theorem delFwd_len (s : Snap) : (applyEdit .delFwd s).text.length ≤ s.text.length := by
  unfold applyEdit
  by_cases h : s.cursor < s.text.length
  · simp [h]
    omega
  · simp [h]

theorem applyEdit_dir (e : Edit) (s : Snap) :
    applyEdit e s = s ∨ dirOk e s.text.length (applyEdit e s).text.length := by
  cases e with
  | typeChar ch =>
    right
    rw [dirOk, typeChar_len]
    omega
  | insStr d =>
    by_cases h : d = []
    · left
      cases s with
      | mk t c => simp [applyEdit, insertAt, h]
    · right
      have hd : 0 < d.length := List.length_pos.mpr h
      simp [applyEdit, dirOk, insertAt]
      omega
  | delBack =>
    by_cases h : s.cursor = 0
    · left
      simp [applyEdit, h]
    · by_cases h2 : s.cursor - 1 < s.text.length
      · right
        simp [applyEdit, dirOk, h]
        omega
      · left
        cases s with
        | mk t c =>
          simp only [applyEdit, if_neg h]
          simp only at h h2
          have hd : t.drop (c - 1) = [] := List.drop_eq_nil_of_le (by omega)
          have hd2 : t.drop c = [] := List.drop_eq_nil_of_le (by omega)
          have ht : t.take (c - 1) = t := List.take_of_length_le (by omega)
          simp [hd, hd2, ht]
  | delFwd =>
    by_cases h : s.cursor < s.text.length
    · right
      simp [applyEdit, dirOk, h]
      omega
    · left
      simp [applyEdit, h]

theorem adjDistinct_tail (a : Snap) (l : List Snap) (h : AdjDistinct (a :: l)) :
    AdjDistinct l :=
  ((adjDistinct_cons_iff a l).1 h).2

theorem save_ustack_nil (σ : EState) (h : σ.ustack = []) :
    (saveToUndoStack σ).ustack = [{ text := σ.text, cursor := σ.cursor }] := by
  simp [saveToUndoStack, h]

theorem save_ustack_same (σ : EState) (top : Snap) (rest : List Snap)
    (h : σ.ustack = top :: rest) (ht : top.text = σ.text) :
    (saveToUndoStack σ).ustack = { text := σ.text, cursor := σ.cursor } :: rest := by
  simp [saveToUndoStack, h, ht]

theorem save_ustack_diff (σ : EState) (top : Snap) (rest : List Snap)
    (h : σ.ustack = top :: rest) (ht : ¬ top.text = σ.text) :
    (saveToUndoStack σ).ustack = { text := σ.text, cursor := σ.cursor } :: top :: rest := by
  simp [saveToUndoStack, h, ht]

theorem bufferUndo_nil_tail (σ : EState)
    (hs : σ.ustack = [{ text := σ.text, cursor := σ.cursor }]) :
    bufferUndo σ = { σ with ustack := [] } := by
  unfold bufferUndo
  rw [hs]
  simp [dropSame]

theorem bufferUndo_cons_tail (σ : EState) (s : Snap) (rest₂ : List Snap)
    (hs : σ.ustack = { text := σ.text, cursor := σ.cursor } :: s :: rest₂)
    (hne : ¬ s.text = σ.text) :
    bufferUndo σ = { σ with
      text := s.text
      cursor := s.cursor
      ustack := rest₂
      rstack := { text := σ.text, cursor := σ.cursor } :: σ.rstack
      selection := none } := by
  unfold bufferUndo
  rw [hs]
  simp [dropSame, hne]

theorem needed_eq_length (σ : EState)
    (h : ∀ r rr, σ.ustack = r :: rr → ¬ r.text = σ.text) :
    needed σ = σ.ustack.length := by
  unfold needed
  cases hu : σ.ustack with
  | nil => rfl
  | cons r rr => simp [h r rr hu]

theorem undoInv_of_fields (ρ : EState) (init : Snap) (t : Text) (c : Nat) (st : List Snap)
    (hft : ρ.text = t) (hfc : ρ.cursor = c) (hfs : ρ.ustack = st)
    (hadj : AdjDistinct st)
    (hnil : st = [] → t = init.text ∧ c = init.cursor)
    (hlast : st ≠ [] → st.getLast? = some init)
    (htop : ∀ top rr, st = top :: rr → top.text = t → top = { text := t, cursor := c }) :
    UndoInv ρ init := by
  refine ⟨by rw [hfs]; exact hadj, ?_, ?_, ?_⟩
  · intro h0
    rw [hfs] at h0
    rw [hft, hfc]
    exact hnil h0
  · intro h0
    rw [hfs] at h0 ⊢
    exact hlast h0
  · intro top rr hcons htt
    rw [hfs] at hcons
    rw [hft] at htt
    rw [hft, hfc]
    exact htop top rr hcons htt

theorem pressUndo_restore (σ : EState) (init : Snap) (s : Snap) (rest₂ : List Snap)
    (h1 : (saveToUndoStack σ).ustack = { text := σ.text, cursor := σ.cursor } :: s :: rest₂)
    (hst : ¬ s.text = σ.text)
    (hadj2 : AdjDistinct (s :: rest₂))
    (hlast2 : (s :: rest₂).getLast? = some init) :
    UndoInv (pressUndo σ) init ∧ needed (pressUndo σ) = rest₂.length := by
  have h2 := bufferUndo_cons_tail (saveToUndoStack σ) s rest₂ h1 hst
  have ht3 : (pressUndo σ).text = s.text := by
    rw [pressUndo_text, h2]
  have hc3 : (pressUndo σ).cursor = s.cursor := by
    rw [pressUndo_cursor, h2]
  have hu3 : (pressUndo σ).ustack = rest₂ := by
    rw [pressUndo_ustack, h2]
  have hhead : ∀ r rr, rest₂ = r :: rr → s.text ≠ r.text :=
    fun r rr hx => ((adjDistinct_cons_iff s rest₂).1 hadj2).1 r rr hx
  constructor
  · refine undoInv_of_fields _ init s.text s.cursor rest₂ ht3 hc3 hu3
      (adjDistinct_tail s rest₂ hadj2) ?_ ?_ ?_
    · intro h0
      rw [h0] at hlast2
      have : s = init := by
        simpa using hlast2
      rw [this]
      exact ⟨rfl, rfl⟩
    · intro h0
      cases hr : rest₂ with
      | nil => exact absurd hr h0
      | cons r rr =>
        rw [hr] at hlast2
        rw [List.getLast?_cons_cons] at hlast2
        exact hlast2
    · intro top rr hcons htt
      exact absurd htt.symm (hhead top rr hcons)
  · have hn := needed_eq_length (pressUndo σ) (by
      intro r rr hx
      rw [hu3] at hx
      rw [ht3]
      exact fun hy => hhead r rr hx hy.symm)
    rw [hn, hu3]

theorem pressUndo_step (σ : EState) (init : Snap) (h : UndoInv σ init) :
    UndoInv (pressUndo σ) init ∧ needed (pressUndo σ) ≤ needed σ - 1 := by
  obtain ⟨hadj, hnil, hlast, htop⟩ := h
  cases hu : σ.ustack with
  | nil =>
    have h1 := save_ustack_nil σ hu
    have h2 : bufferUndo (saveToUndoStack σ) = { saveToUndoStack σ with ustack := [] } :=
      bufferUndo_nil_tail _ h1
    have ht3 : (pressUndo σ).text = σ.text := by
      rw [pressUndo_text, h2]
      rfl
    have hc3 : (pressUndo σ).cursor = σ.cursor := by
      rw [pressUndo_cursor, h2]
      rfl
    have hu3 : (pressUndo σ).ustack = [] := by
      rw [pressUndo_ustack, h2]
    obtain ⟨ht0, hc0⟩ := hnil hu
    constructor
    · refine undoInv_of_fields _ init σ.text σ.cursor [] ht3 hc3 hu3 trivial
        (fun _ => ⟨ht0, hc0⟩) (fun hx => absurd rfl hx) ?_
      intro top rr hcons
      simp at hcons
    · have hn := needed_eq_length (pressUndo σ) (by
        intro r rr hx
        rw [hu3] at hx
        simp at hx)
      rw [hn, hu3]
      simp
  | cons top rest =>
    have hne : σ.ustack ≠ [] := by rw [hu]; simp
    have hlast' := hlast hne
    rw [hu] at hlast'
    by_cases ht : top.text = σ.text
    · have hteq : top = { text := σ.text, cursor := σ.cursor } := htop top rest hu ht
      have h1 := save_ustack_same σ top rest hu ht
      cases rest with
      | nil =>
        have h2 : bufferUndo (saveToUndoStack σ) = { saveToUndoStack σ with ustack := [] } :=
          bufferUndo_nil_tail _ h1
        have ht3 : (pressUndo σ).text = σ.text := by
          rw [pressUndo_text, h2]
          rfl
        have hc3 : (pressUndo σ).cursor = σ.cursor := by
          rw [pressUndo_cursor, h2]
          rfl
        have hu3 : (pressUndo σ).ustack = [] := by
          rw [pressUndo_ustack, h2]
        have hinit : top = init := by simpa using hlast'
        have hcur : init = { text := σ.text, cursor := σ.cursor } := hinit ▸ hteq
        constructor
        · refine undoInv_of_fields _ init σ.text σ.cursor [] ht3 hc3 hu3 trivial
            (fun _ => by rw [hcur]; exact ⟨rfl, rfl⟩) (fun hx => absurd rfl hx) ?_
          intro top' rr hcons
          simp at hcons
        · have hn := needed_eq_length (pressUndo σ) (by
            intro r rr hx
            rw [hu3] at hx
            simp at hx)
          rw [hn, hu3]
          simp
      | cons s rest₂ =>
        have hadj' : AdjDistinct (top :: s :: rest₂) := by rw [hu] at hadj; exact hadj
        have hst : ¬ s.text = σ.text := by
          have hd := ((adjDistinct_cons_iff top (s :: rest₂)).1 hadj').1 s rest₂ rfl
          rw [ht] at hd
          exact fun hx => hd hx.symm
        have hadj2 : AdjDistinct (s :: rest₂) := adjDistinct_tail top (s :: rest₂) hadj'
        have hlast2 : (s :: rest₂).getLast? = some init := by
          rw [List.getLast?_cons_cons] at hlast'
          exact hlast'
        obtain ⟨hi, hn⟩ := pressUndo_restore σ init s rest₂ h1 hst hadj2 hlast2
        refine ⟨hi, ?_⟩
        rw [hn]
        simp [needed, hu, ht]
    · have h1 := save_ustack_diff σ top rest hu ht
      have hadj' : AdjDistinct (top :: rest) := by rw [hu] at hadj; exact hadj
      obtain ⟨hi, hn⟩ := pressUndo_restore σ init top rest h1 ht hadj' hlast'
      refine ⟨hi, ?_⟩
      rw [hn]
      simp [needed, hu, ht]

theorem pressUndoN_reaches : ∀ (n : Nat) (σ : EState) (init : Snap),
    UndoInv σ init → needed σ ≤ n →
    (pressUndoN n σ).text = init.text ∧ (pressUndoN n σ).cursor = init.cursor := by
  intro n
  induction n with
  | zero =>
    intro σ init h hn
    obtain ⟨hadj, hnil, hlast, htop⟩ := h
    cases hu : σ.ustack with
    | nil => exact hnil hu
    | cons top rest =>
      by_cases ht : top.text = σ.text
      · have h0 : needed σ = rest.length := by simp [needed, hu, ht]
        rw [h0] at hn
        have hr : rest = [] := List.eq_nil_of_length_eq_zero (Nat.le_zero.mp hn)
        have hlast' := hlast (by rw [hu]; simp)
        rw [hu, hr] at hlast'
        have hinit : top = init := by simpa using hlast'
        have hteq := htop top rest hu ht
        show σ.text = init.text ∧ σ.cursor = init.cursor
        rw [← hinit, hteq]
        exact ⟨rfl, rfl⟩
      · exfalso
        have h0 : needed σ = rest.length + 1 := by simp [needed, hu, ht]
        omega
  | succ n ih =>
    intro σ init h hn
    obtain ⟨hi, hstep⟩ := pressUndo_step σ init h
    have hn' : needed (pressUndo σ) ≤ n := by omega
    exact ih (pressUndo σ) init hi hn'

theorem sameBinding_true (p e : Edit) (h : sameBinding p e = true) :
    (∃ a b, p = .typeChar a ∧ e = .typeChar b)
  ∨ (p = .delBack ∧ e = .delBack) ∨ (p = .delFwd ∧ e = .delFwd) := by
  cases p <;> cases e <;> simp_all [sameBinding]

theorem editCore_text (e : Edit) (σ : EState) :
    (editCore e σ).text = (applyEdit e { text := σ.text, cursor := σ.cursor }).text := rfl

theorem editCore_cursor (e : Edit) (σ : EState) :
    (editCore e σ).cursor = (applyEdit e { text := σ.text, cursor := σ.cursor }).cursor := rfl

theorem invE_save (σ : EState) (init : Snap) (prev : Option Edit)
    (h : InvE σ init prev) : SavedInv (saveToUndoStack σ) init := by
  obtain ⟨hadj, hnil, hlast, hburst⟩ := h
  cases hu : σ.ustack with
  | nil =>
    have h1 := save_ustack_nil σ hu
    obtain ⟨-, ht0, hc0⟩ := hnil hu
    have hinit : init = { text := σ.text, cursor := σ.cursor } := by
      cases init
      simp_all
    refine ⟨?_, ?_, [], h1⟩
    · rw [h1]
      exact trivial
    · rw [h1, hinit]
      simp
  | cons top rest =>
    have hne : σ.ustack ≠ [] := by rw [hu]; simp
    by_cases ht : top.text = σ.text
    · have hteq : top = { text := σ.text, cursor := σ.cursor } := by
        rcases hburst top rest hu with heq | ⟨p, hp, hd⟩
        · exact heq.symm
        · exfalso
          have hl : top.text.length = σ.text.length := by rw [ht]
          cases p <;> simp [dirOk] at hd <;> omega
      have h1 := save_ustack_same σ top rest hu ht
      have hsame : (saveToUndoStack σ).ustack = σ.ustack := by
        rw [h1, hu, hteq]
      refine ⟨?_, ?_, rest, h1⟩
      · rw [hsame]
        exact hadj
      · rw [hsame]
        exact hlast hne
    · have h1 := save_ustack_diff σ top rest hu ht
      refine ⟨?_, ?_, top :: rest, h1⟩
      · rw [h1]
        refine (adjDistinct_cons_iff _ _).2 ⟨?_, ?_⟩
        · intro b rr' hx
          injection hx with hx1 hx2
          rw [← hx1]
          exact fun hy => ht hy.symm
        · rw [← hu]
          exact hadj
      · rw [h1, List.getLast?_cons_cons, ← hu]
        exact hlast hne

theorem editCore_invE (σ : EState) (init : Snap) (e : Edit)
    (h : SavedInv σ init) : InvE (editCore e σ) init (some e) := by
  obtain ⟨hadj, hlast, tail, htail⟩ := h
  refine ⟨?_, ?_, ?_, ?_⟩
  · rw [editCore_ustack]
    exact hadj
  · intro h0
    rw [editCore_ustack, htail] at h0
    simp at h0
  · intro h0
    rw [editCore_ustack]
    exact hlast
  · intro top rr hcons
    rw [editCore_ustack, htail] at hcons
    injection hcons with h1 h2
    rcases applyEdit_dir e { text := σ.text, cursor := σ.cursor } with heq | hdir
    · left
      have : ({ text := (editCore e σ).text, cursor := (editCore e σ).cursor } : Snap)
          = { text := σ.text, cursor := σ.cursor } := by
        rw [editCore_snap, heq]
      rw [this, h1]
    · right
      refine ⟨e, rfl, ?_⟩
      have hlen : (editCore e σ).text.length
          = (applyEdit e { text := σ.text, cursor := σ.cursor }).text.length := by
        rw [editCore_text]
      rw [← h1, hlen]
      exact hdir

theorem editCore_invE_repeat (σ : EState) (init : Snap) (p e : Edit)
    (hsb : sameBinding p e = true)
    (h : InvE σ init (some p)) : InvE (editCore e σ) init (some e) := by
  obtain ⟨hadj, hnil, hlast, hburst⟩ := h
  refine ⟨?_, ?_, ?_, ?_⟩
  · rw [editCore_ustack]
    exact hadj
  · intro h0
    rw [editCore_ustack] at h0
    exact absurd (hnil h0).1 (by simp)
  · intro h0
    rw [editCore_ustack] at h0 ⊢
    exact hlast h0
  · intro top rr hcons
    rw [editCore_ustack] at hcons
    have hb := hburst top rr hcons
    have hsnap : ({ text := (editCore e σ).text, cursor := (editCore e σ).cursor } : Snap)
        = applyEdit e { text := σ.text, cursor := σ.cursor } := editCore_snap e σ
    rcases sameBinding_true p e hsb with ⟨a, b, hp, he⟩ | ⟨hp, he⟩ | ⟨hp, he⟩
    · subst hp he
      right
      refine ⟨.typeChar b, rfl, ?_⟩
      have hlen : (editCore (Edit.typeChar b) σ).text.length = σ.text.length + 1 := by
        rw [editCore_text]
        exact typeChar_len b { text := σ.text, cursor := σ.cursor }
      rcases hb with heq | ⟨q, hq, hd⟩
      · have hteq : top.text.length = σ.text.length := by rw [← heq]
        simp only [dirOk]
        omega
      · injection hq with hq1
        subst hq1
        simp only [dirOk] at hd ⊢
        omega
    · subst hp he
      have h5 : (editCore Edit.delBack σ).text.length
          = (applyEdit Edit.delBack { text := σ.text, cursor := σ.cursor }).text.length := by
        rw [editCore_text]
      have hle : (editCore Edit.delBack σ).text.length ≤ σ.text.length := by
        rw [h5]
        exact delBack_len { text := σ.text, cursor := σ.cursor }
      rcases hb with heq | ⟨q, hq, hd⟩
      · rcases applyEdit_dir .delBack { text := σ.text, cursor := σ.cursor } with hid | hdir
        · left
          rw [hsnap, hid]
          exact heq
        · right
          refine ⟨.delBack, rfl, ?_⟩
          have hteq : top.text.length = σ.text.length := by rw [← heq]
          simp only [dirOk] at hdir ⊢
          omega
      · injection hq with hq1
        subst hq1
        right
        refine ⟨.delBack, rfl, ?_⟩
        simp only [dirOk] at hd ⊢
        omega
    · subst hp he
      have h5 : (editCore Edit.delFwd σ).text.length
          = (applyEdit Edit.delFwd { text := σ.text, cursor := σ.cursor }).text.length := by
        rw [editCore_text]
      have hle : (editCore Edit.delFwd σ).text.length ≤ σ.text.length := by
        rw [h5]
        exact delFwd_len { text := σ.text, cursor := σ.cursor }
      rcases hb with heq | ⟨q, hq, hd⟩
      · rcases applyEdit_dir .delFwd { text := σ.text, cursor := σ.cursor } with hid | hdir
        · left
          rw [hsnap, hid]
          exact heq
        · right
          refine ⟨.delFwd, rfl, ?_⟩
          have hteq : top.text.length = σ.text.length := by rw [← heq]
          simp only [dirOk] at hdir ⊢
          omega
      · injection hq with hq1
        subst hq1
        right
        refine ⟨.delFwd, rfl, ?_⟩
        simp only [dirOk] at hd ⊢
        omega

theorem pressEdit_invE (σ : EState) (init : Snap) (prev : Option Edit) (e : Edit)
    (h : InvE σ init prev) : InvE (pressEdit prev e σ) init (some e) := by
  cases prev with
  | none =>
    show InvE (editCore e (saveToUndoStack σ)) init (some e)
    exact editCore_invE _ init e (invE_save σ init none h)
  | some p =>
    by_cases hsb : sameBinding p e = true
    · have hrw : pressEdit (some p) e σ = editCore e σ := by
        simp [pressEdit, hsb]
      rw [hrw]
      exact editCore_invE_repeat σ init p e hsb h
    · have hrw : pressEdit (some p) e σ = editCore e (saveToUndoStack σ) := by
        simp [pressEdit, hsb]
      rw [hrw]
      exact editCore_invE _ init e (invE_save σ init (some p) h)

theorem save_len (σ : EState) :
    (saveToUndoStack σ).ustack.length ≤ σ.ustack.length + 1 := by
  unfold saveToUndoStack
  cases hu : σ.ustack with
  | nil => simp
  | cons top rest =>
    by_cases ht : top.text = σ.text <;> simp [ht]

theorem pressEdit_len (prev : Option Edit) (e : Edit) (σ : EState) :
    (pressEdit prev e σ).ustack.length ≤ σ.ustack.length + 1 := by
  cases prev with
  | none =>
    show (editCore e (saveToUndoStack σ)).ustack.length ≤ σ.ustack.length + 1
    rw [editCore_ustack]
    exact save_len σ
  | some p =>
    by_cases hsb : sameBinding p e = true
    · have hrw : pressEdit (some p) e σ = editCore e σ := by
        simp [pressEdit, hsb]
      rw [hrw, editCore_ustack]
      omega
    · have hrw : pressEdit (some p) e σ = editCore e (saveToUndoStack σ) := by
        simp [pressEdit, hsb]
      rw [hrw, editCore_ustack]
      exact save_len σ

theorem pressEdits_invE : ∀ (es : List Edit) (prev : Option Edit) (σ : EState) (init : Snap),
    InvE σ init prev →
    (∃ prev', InvE (pressEdits prev es σ) init prev')
      ∧ (pressEdits prev es σ).ustack.length ≤ σ.ustack.length + es.length := by
  intro es
  induction es with
  | nil =>
    intro prev σ init h
    exact ⟨⟨prev, h⟩, by simp [pressEdits]⟩
  | cons e es ih =>
    intro prev σ init h
    have h1 := pressEdit_invE σ init prev e h
    have hlen := pressEdit_len prev e σ
    obtain ⟨hex, hl⟩ := ih (some e) (pressEdit prev e σ) init h1
    refine ⟨hex, ?_⟩
    show (pressEdits (some e) es (pressEdit prev e σ)).ustack.length
        ≤ σ.ustack.length + (e :: es).length
    have : (e :: es).length = es.length + 1 := by simp
    omega

theorem invE_undoInv (σ : EState) (init : Snap) (prev : Option Edit)
    (h : InvE σ init prev) : UndoInv σ init := by
  obtain ⟨hadj, hnil, hlast, hburst⟩ := h
  refine ⟨hadj, fun h0 => ⟨(hnil h0).2.1, (hnil h0).2.2⟩, hlast, ?_⟩
  intro top rr hcons ht
  rcases hburst top rr hcons with heq | ⟨p, hp, hd⟩
  · exact heq.symm
  · exfalso
    have hl : top.text.length = σ.text.length := by rw [ht]
    cases p <;> simp [dirOk] at hd <;> omega

theorem needed_le_len (σ : EState) : needed σ ≤ σ.ustack.length := by
  unfold needed
  cases hu : σ.ustack with
  | nil => simp
  | cons top rest =>
    by_cases ht : top.text = σ.text <;> simp [ht]

/-- Claim C3: starting the editor at any buffer content and cursor
position (fresh undo/redo history), any sequence of insert/delete edit key
presses — typed characters, paste-style insertions, backspace, forward
delete, with the key processor's `if_no_repeat` snapshot rule — followed
by an equal number of Ctrl+Z presses restores the buffer content and the
cursor position exactly: the snapshot taken before each press makes undo a
true inverse of the whole sequence. -/
theorem undo_inverts_edit_sequence (es : List Edit) (t0 : Text) (c0 : Nat)
    (sel : Option Nat) (clip : Option ClipData) (msg : Text) :
    (pressUndoN es.length (pressEdits none es
        { text := t0, cursor := c0, ustack := [], rstack := [],
          selection := sel, clipboard := clip, message := msg })).text = t0
  ∧ (pressUndoN es.length (pressEdits none es
        { text := t0, cursor := c0, ustack := [], rstack := [],
          selection := sel, clipboard := clip, message := msg })).cursor = c0 := by
  have h0 : InvE
      ({ text := t0, cursor := c0, ustack := [], rstack := [],
         selection := sel, clipboard := clip, message := msg })
      { text := t0, cursor := c0 } none := by
    refine ⟨trivial, fun _ => ⟨rfl, rfl, rfl⟩, fun hx => absurd rfl hx, ?_⟩
    intro top rr hcons
    simp at hcons
  obtain ⟨⟨prev', hInv⟩, hlen⟩ := pressEdits_invE es none _ _ h0
  have hund := invE_undoInv _ _ _ hInv
  have hneed : needed (pressEdits none es
      ({ text := t0, cursor := c0, ustack := [], rstack := [],
         selection := sel, clipboard := clip, message := msg })) ≤ es.length := by
    have h2 := needed_le_len (pressEdits none es
      ({ text := t0, cursor := c0, ustack := [], rstack := [],
         selection := sel, clipboard := clip, message := msg }))
    simp at hlen
    omega
  exact pressUndoN_reaches es.length _ { text := t0, cursor := c0 } hund hneed
